import Mathlib

/-!
Shallow embedding of the core of the MF_management repository:
`nav_fetcher.py` (identity resolver `get_scheme_code` and price-history
cache `fetch_historical_nav`) and `data_processor.py` (transaction
extractor `load_data` with its query operations).  External collaborators
(the AMFI registry client, pandas I/O) are modelled as explicit inputs;
the persisted JSON stores are modelled as in-memory association lists,
with the synchronous `save_*` calls making the in-memory state the
persisted state.
-/

namespace MFspec

/-- Whitespace test used to model Python `str.strip` on column labels. -/
def isWS (c : Char) : Bool := c = ' ' || c = '\t' || c = '\n' || c = '\r'

/-- Models Python `str.strip`: drop whitespace from both ends of a string. -/
def stripStr (s : String) : String :=
  String.mk (((s.data.dropWhile isWS).reverse.dropWhile isWS).reverse)

/-- The character for decimal digit `d`. -/
def digitChar (d : Nat) : Char := Char.ofNat (48 + d)

/-- Numeric value of a decimal digit character. -/
def digitVal (c : Char) : Nat := c.toNat - 48

/-- Decimal digit test. -/
def isDigitCh (c : Char) : Bool := 48 ≤ c.toNat && c.toNat ≤ 57

/-- Base-10 digits, most significant first, via structural recursion on a
fuel argument; fuel `n` is enough for input `n`. -/
def natDigitsAux : Nat → Nat → List Nat
  | 0, _ => []
  | _+1, 0 => []
  | fuel+1, n+1 => natDigitsAux fuel ((n+1) / 10) ++ [(n+1) % 10]

/-- Base-10 digits of `n`, most significant first (`[]` for `0`). -/
def natDigits (n : Nat) : List Nat := natDigitsAux n n

/-- Value of a most-significant-first digit list. -/
def valDigits (ds : List Nat) : Nat := ds.foldl (fun a d => 10 * a + d) 0

/-- Left-pad a digit list with zeros to width `w`. -/
def padDigits (w : Nat) (ds : List Nat) : List Nat :=
  List.replicate (w - ds.length) 0 ++ ds

/-- Zero-padded decimal rendering of `n` to width `w`, as characters. -/
def natChars (w n : Nat) : List Char := (padDigits w (natDigits n)).map digitChar

/-- Read a non-empty, all-digit character group as a number. -/
def readDigits (cs : List Char) : Option Nat :=
  if cs.isEmpty then none
  else if cs.all isDigitCh then some (cs.foldl (fun a c => 10 * a + digitVal c) 0)
  else none

/-- A calendar date. -/
structure Date where
  year : Nat
  month : Nat
  day : Nat
deriving DecidableEq, Repr

/-- Lexicographic comparison key; for parsed dates `month ≤ 12` and
`day ≤ 31`, so key order is calendar order. -/
def dateKey (d : Date) : Nat := d.year * 10000 + d.month * 100 + d.day

/-- Gregorian leap-year test. -/
def isLeap (y : Nat) : Bool := (y % 4 == 0 && y % 100 != 0) || y % 400 == 0

/-- Number of days in month `m` of year `y`. -/
def daysInMonth (y m : Nat) : Nat :=
  if m == 2 then (if isLeap y then 29 else 28)
  else if m == 4 || m == 6 || m == 9 || m == 11 then 30
  else 31

/-- Calendar validity, as enforced by the datetime parsing in pandas. -/
def validDate (d : Date) : Bool :=
  1 ≤ d.month && d.month ≤ 12 && 1 ≤ d.day && d.day ≤ daysInMonth d.year d.month

/-- Parse a `%d-%m-%Y` string: models `pd.to_datetime(_, format='%d-%m-%Y')`
applied to the provider's date texts in `fetch_historical_nav` — three
dash-separated digit groups, day first, rejected unless a real date. -/
def parseDMY (s : String) : Option Date :=
  match s.data.splitOn '-' with
  | [ds, ms, ys] =>
    match readDigits ds, readDigits ms, readDigits ys with
    | some d, some m, some y =>
        if validDate ⟨y, m, d⟩ then some ⟨y, m, d⟩ else none
    | _, _, _ => none
  | _ => none

/-- Parse an ISO `YYYY-MM-DD` string: models `pd.to_datetime` applied to
the date strings the cache itself wrote. -/
def parseISO (s : String) : Option Date :=
  match s.data.splitOn '-' with
  | [ys, ms, ds] =>
    match readDigits ys, readDigits ms, readDigits ds with
    | some y, some m, some d =>
        if validDate ⟨y, m, d⟩ then some ⟨y, m, d⟩ else none
    | _, _, _ => none
  | _ => none

/-- Render a date as ISO `YYYY-MM-DD`: models `strftime('%Y-%m-%d')`
(year zero-padded to four digits, month and day to two). -/
def formatISO (d : Date) : String :=
  String.mk (natChars 4 d.year ++ '-' :: (natChars 2 d.month ++ '-' :: natChars 2 d.day))

/-- Parse an unsigned decimal numeral to an exact rational. -/
def parseDecPos (l : List Char) : Option Rat :=
  match l.splitOn '.' with
  | [ip] => (readDigits ip).map (fun n => (n : Rat))
  | [ip, fp] =>
    match readDigits ip, readDigits fp with
    | some i, some f => some ((i : Rat) + (f : Rat) / ((10 : Rat) ^ fp.length))
    | _, _ => none
  | _ => none

/-- Parse a possibly-signed decimal numeral: models `pd.to_numeric` on the
numeric texts that appear in NAV and statement data. -/
def parseDec (s : String) : Option Rat :=
  match s.data with
  | '-' :: rest => (parseDecPos rest).map (fun q => -q)
  | l => parseDecPos l

/-! ### Digit and round-trip lemmas -/

theorem foldl_digits_acc (ds : List Nat) (a : Nat) :
    ds.foldl (fun x d => 10 * x + d) a =
      a * 10 ^ ds.length + ds.foldl (fun x d => 10 * x + d) 0 := by
  induction ds generalizing a with
  | nil => simp
  | cons d t ih =>
    simp only [List.foldl_cons, List.length_cons]
    rw [ih (10 * a + d), ih (10 * 0 + d)]
    ring

theorem natDigitsAux_val (fuel : Nat) : ∀ n : Nat, n ≤ fuel →
    valDigits (natDigitsAux fuel n) = n := by
  induction fuel with
  | zero =>
    intro n hn
    interval_cases n
    simp [natDigitsAux, valDigits]
  | succ f ih =>
    intro n hn
    match n with
    | 0 => simp [natDigitsAux, valDigits]
    | m+1 =>
      have hq : (m+1) / 10 ≤ f := by
        have : (m+1) / 10 < m + 1 := Nat.div_lt_self (Nat.succ_pos m) (by omega)
        omega
      show valDigits (natDigitsAux f ((m+1) / 10) ++ [(m+1) % 10]) = m + 1
      unfold valDigits
      rw [List.foldl_append]
      have hv := ih ((m+1) / 10) hq
      unfold valDigits at hv
      simp only [List.foldl_cons, List.foldl_nil, hv]
      omega

theorem natDigits_val (n : Nat) : valDigits (natDigits n) = n :=
  natDigitsAux_val n n le_rfl

theorem natDigitsAux_lt10 (fuel : Nat) : ∀ n : Nat, ∀ d ∈ natDigitsAux fuel n, d < 10 := by
  induction fuel with
  | zero => intro n d hd; simp [natDigitsAux] at hd
  | succ f ih =>
    intro n d hd
    match n with
    | 0 => simp [natDigitsAux] at hd
    | m+1 =>
      have : d ∈ natDigitsAux f ((m+1) / 10) ++ [(m+1) % 10] := hd
      rcases List.mem_append.mp this with h | h
      · exact ih _ d h
      · simp at h
        omega

theorem natDigits_lt10 (n : Nat) : ∀ d ∈ natDigits n, d < 10 :=
  natDigitsAux_lt10 n n

theorem padDigits_lt10 (w : Nat) (ds : List Nat) (h : ∀ d ∈ ds, d < 10) :
    ∀ d ∈ padDigits w ds, d < 10 := by
  intro d hd
  rcases List.mem_append.mp hd with h0 | h1
  · have := List.eq_of_mem_replicate h0
    omega
  · exact h d h1

theorem valDigits_pad (w : Nat) (ds : List Nat) :
    valDigits (padDigits w ds) = valDigits ds := by
  unfold valDigits padDigits
  rw [List.foldl_append]
  congr 1
  induction (w - ds.length) with
  | zero => simp
  | succ k ih => simpa [List.replicate_succ] using ih

theorem digitVal_digitChar : ∀ d, d < 10 → digitVal (digitChar d) = d := by decide

theorem isDigitCh_digitChar : ∀ d, d < 10 → isDigitCh (digitChar d) = true := by decide

theorem digitChar_ne_dash : ∀ d, d < 10 → digitChar d ≠ '-' := by decide

theorem natChars_ne_nil (w n : Nat) (hw : 1 ≤ w) : natChars w n ≠ [] := by
  unfold natChars padDigits
  intro h
  rcases List.map_eq_nil_iff.mp h |> List.append_eq_nil.mp with ⟨h1, h2⟩
  have : w - (natDigits n).length = 0 := by
    simpa using congrArg List.length h1
  have : (natDigits n).length = 0 := by simpa using congrArg List.length h2
  omega

theorem readDigits_natChars (w n : Nat) (hw : 1 ≤ w) :
    readDigits (natChars w n) = some n := by
  have hne : (natChars w n).isEmpty = false := by
    cases h : natChars w n with
    | nil => exact absurd h (natChars_ne_nil w n hw)
    | cons c cs => simp [List.isEmpty]
  have hlt : ∀ d ∈ padDigits w (natDigits n), d < 10 :=
    padDigits_lt10 w _ (natDigits_lt10 n)
  have hall : (natChars w n).all isDigitCh = true := by
    unfold natChars
    rw [List.all_eq_true]
    intro c hc
    rcases List.mem_map.mp hc with ⟨d, hd, rfl⟩
    exact isDigitCh_digitChar d (hlt d hd)
  have hfold : (natChars w n).foldl (fun a c => 10 * a + digitVal c) 0 = n := by
    unfold natChars
    rw [List.foldl_map]
    have hext : (padDigits w (natDigits n)).foldl
          (fun a d => 10 * a + digitVal (digitChar d)) 0 =
        (padDigits w (natDigits n)).foldl (fun a d => 10 * a + d) 0 := by
      apply List.foldl_ext
      intro a d hd
      rw [digitVal_digitChar d (hlt d hd)]
    rw [hext]
    have h1 := valDigits_pad w (natDigits n)
    have h2 := natDigits_val n
    unfold valDigits at h1 h2
    rw [h1, h2]
  simp [readDigits, hne, hall, hfold]

theorem natChars_no_dash (w n : Nat) : '-' ∉ natChars w n := by
  intro h
  rcases List.mem_map.mp h with ⟨d, hd, hdc⟩
  have hlt : d < 10 := padDigits_lt10 w _ (natDigits_lt10 n) d hd
  exact digitChar_ne_dash d hlt hdc

theorem splitOn_three (a b c : List Char) (x : Char)
    (ha : x ∉ a) (hb : x ∉ b) (hc : x ∉ c) :
    (a ++ x :: (b ++ x :: c)).splitOn x = [a, b, c] := by
  have h := List.splitOn_intercalate [a, b, c] x
    (by intro l hl; simp at hl; rcases hl with rfl | rfl | rfl <;> assumption)
    (by simp)
  have hi : [x].intercalate [a, b, c] = a ++ x :: (b ++ x :: c) := by
    simp [List.intercalate, List.intersperse]
  rwa [hi] at h

theorem parseISO_formatISO (d : Date) (h : validDate d = true) :
    parseISO (formatISO d) = some d := by
  unfold parseISO formatISO
  have hdata : (String.mk (natChars 4 d.year ++ '-' ::
      (natChars 2 d.month ++ '-' :: natChars 2 d.day))).data =
      natChars 4 d.year ++ '-' :: (natChars 2 d.month ++ '-' :: natChars 2 d.day) := rfl
  rw [hdata, splitOn_three _ _ _ _ (natChars_no_dash 4 d.year)
    (natChars_no_dash 2 d.month) (natChars_no_dash 2 d.day)]
  have heta : (⟨d.year, d.month, d.day⟩ : Date) = d := by cases d; rfl
  simp only [readDigits_natChars 4 d.year (by omega), readDigits_natChars 2 d.month (by omega),
    readDigits_natChars 2 d.day (by omega)]
  simp [heta, h]

/-! ### Price history cache (`NavFetcher.fetch_historical_nav`) -/

/-- One raw point as returned by the external provider
(`mf.get_scheme_historical_nav`): textual date and NAV. -/
structure RawPoint where
  date : String
  nav : String
deriving DecidableEq, Repr

/-- Provider behaviour at one call: a raised transport fault, a falsy or
`data`-less response, or a response carrying a raw point list. -/
inductive ProviderResp where
  | fault
  | nodata
  | ok (raw : List RawPoint)
deriving DecidableEq, Repr

/-- A parsed NAV point (one row of the in-memory DataFrame). -/
structure CachePoint where
  date : Date
  nav : Rat
deriving DecidableEq, Repr

/-- A point as serialised into `nav_cache.json`: date as an ISO string. -/
structure StoredPoint where
  date : String
  nav : Rat
deriving DecidableEq, Repr

/-- One cache entry: the `last_updated` date string plus the serialised
point list. -/
structure CacheEntry where
  last_updated : String
  data : List StoredPoint
deriving DecidableEq, Repr

/-- First-match lookup in an association list (Python `dict` access). -/
def lookupA {β : Type} : List (String × β) → String → Option β
  | [], _ => none
  | (k, v) :: t, key => if k = key then some v else lookupA t key

/-- Python `dict` assignment: replace the value of an existing key in
place, otherwise append (insertion order). -/
def insertA {β : Type} : List (String × β) → String → β → List (String × β)
  | [], key, v => [(key, v)]
  | (k, w) :: t, key, v =>
      if k = key then (key, v) :: t else (k, w) :: insertA t key v

/-- Serialise a point for the JSON cache (`strftime('%Y-%m-%d')`). -/
def storePoint (p : CachePoint) : StoredPoint := ⟨formatISO p.date, p.nav⟩

/-- Reload one stored point (`pd.to_datetime` on the ISO string). -/
def loadPoint (sp : StoredPoint) : Option CachePoint :=
  (parseISO sp.date).map (fun d => ⟨d, sp.nav⟩)

/-- Reload a stored series. -/
def loadPoints (l : List StoredPoint) : Option (List CachePoint) :=
  l.mapM loadPoint

/-- Row ordering used by `df.sort_values('date')`. -/
def pointLe (p q : CachePoint) : Prop := dateKey p.date ≤ dateKey q.date

instance : DecidableRel pointLe := fun _ _ => Nat.decLe _ _

/-- Parse one raw provider point: `%d-%m-%Y` date, numeric NAV. -/
def parsePoint (r : RawPoint) : Option CachePoint := do
  let d ← parseDMY r.date
  let n ← parseDec r.nav
  some ⟨d, n⟩

/-- Process a successful provider response, as `fetch_historical_nav`
does: an empty record list is malformed (the empty DataFrame has no
`date` column, so the column access raises); otherwise every date and NAV
must parse and the rows are sorted ascending by date.  `none` models the
raised, caught-and-swallowed exception.  The code contains no
deduplication step. -/
def processRaw (raw : List RawPoint) : Option (List CachePoint) :=
  match raw with
  | [] => none
  | _ => (raw.mapM parsePoint).map (List.insertionSort pointLe)

/-- The cache store (`nav_cache.json`), keyed by scheme code. -/
structure FetchState where
  cache : List (String × CacheEntry)
deriving DecidableEq, Repr

/-- Observable outcome of `fetch_historical_nav`: the returned series (or
`None`), the cache state afterwards, whether the provider was called, and
whether the cache store was consulted. -/
structure FetchResult where
  result : Option (List CachePoint)
  state : FetchState
  providerCalled : Bool
  cacheRead : Bool
deriving DecidableEq, Repr

/-- The provider branch of `fetch_historical_nav` (the `try` block).  The
cache entry is written, and `save_cache` flushes it, only after the whole
response has been parsed and sorted. -/
def fetchFromProvider (st : FetchState) (provider : String → ProviderResp)
    (today : String) (code : String) : FetchResult :=
  match provider code with
  | .fault => ⟨none, st, true, true⟩
  | .nodata => ⟨none, st, true, true⟩
  | .ok raw =>
    match processRaw raw with
    | none => ⟨none, st, true, true⟩
    | some pts =>
        ⟨some pts, ⟨insertA st.cache code ⟨today, pts.map storePoint⟩⟩, true, true⟩

/-- Return a fresh cache entry (`pd.to_datetime` on stored ISO strings). -/
def decodeEntry (e : CacheEntry) : Option (List CachePoint) := loadPoints e.data

/-- `NavFetcher.fetch_historical_nav`.  `scheme_code` is `none` for Python
`None`; `not scheme_code` also holds for the empty string.  `today` is
`datetime.date.today().isoformat()`; `provider` models
`mf.get_scheme_historical_nav`.  `save_cache` is synchronous, so the
returned state is the persisted store. -/
def fetch_historical_nav (st : FetchState) (provider : String → ProviderResp)
    (today : String) (scheme_code : Option String) : FetchResult :=
  match scheme_code with
  | none => ⟨none, st, false, false⟩
  | some code =>
    if code.isEmpty then ⟨none, st, false, false⟩
    else
      match lookupA st.cache code with
      | some e =>
          if e.last_updated = today then ⟨decodeEntry e, st, false, true⟩
          else fetchFromProvider st provider today code
      | none => fetchFromProvider st provider today code

/-! ### Identity resolver (`NavFetcher.get_scheme_code`) -/

/-- `fuzzywuzzy.process.extractOne`: the best-scoring choice, the earlier
choice preferred on ties, `None` on an empty choice list (the source would
then fail at tuple unpacking; no claim exercises that case).  The
similarity scorer is an explicit parameter (spec §9: pluggable
`score(a, b) → [0, 100]`). -/
def extractOne (score : String → Nat) : List String → Option (String × Nat)
  | [] => none
  | c :: cs =>
    match extractOne score cs with
    | none => some (c, score c)
    | some (b, s) => if s > score c then some (b, s) else some (c, score c)

/-- Resolver state: the AMFI catalog (`self.scheme_codes`, code → name,
in dict order; `self.scheme_names` is its value list) and the persisted
mapping store (`scheme_mapping.json`). -/
structure ResolverState where
  scheme_codes : List (String × String)
  mappings : List (String × String)
deriving DecidableEq, Repr

/-- The `for code, name in self.scheme_codes.items()` search: the first
code whose catalog name equals the matched name. -/
def findCodeFor : List (String × String) → String → Option String
  | [], _ => none
  | (code, name) :: t, target =>
      if name = target then some code else findCodeFor t target

/-- `NavFetcher.get_scheme_code`.  Returns the resolved code (or `None`),
the state afterwards, and whether a fuzzy catalog scan was performed.
`save_mappings` is synchronous, so the returned state is the persisted
store. -/
def get_scheme_code (score : String → String → Nat) (st : ResolverState)
    (scheme_name : String) : Option String × ResolverState × Bool :=
  match lookupA st.mappings scheme_name with
  | some code => (some code, st, false)
  | none =>
    match extractOne (score scheme_name) (st.scheme_codes.map Prod.snd) with
    | none => (none, st, true)
    | some (b, s) =>
      if s > 80 then
        match findCodeFor st.scheme_codes b with
        | some code =>
            (some code, ⟨st.scheme_codes, insertA st.mappings scheme_name code⟩, true)
        | none => (none, st, true)
      else (none, st, true)

/-! ### Transaction extractor (`DataProcessor`) -/

/-- One spreadsheet cell as pandas reads it: missing (`NaN`), text, or
numeric. -/
inductive Cell where
  | empty
  | str (s : String)
  | num (q : Rat)
deriving DecidableEq, Repr

/-- `NaN` test (`pd.isna`, as used by `dropna`). -/
def Cell.isNaN : Cell → Bool
  | .empty => true
  | _ => false

/-- The table `pd.read_excel` hands back: column labels as read (possibly
with stray whitespace) and rectangular rows; a short row reads as
`NaN`-filled. -/
structure DF where
  cols : List String
  rows : List (List Cell)
deriving DecidableEq, Repr

/-- Cell of `row` under column label `c` (first matching label). -/
def getCell (cols : List String) (row : List Cell) (c : String) : Cell :=
  match cols.indexOf? c with
  | some i => row.getD i .empty
  | none => .empty

/-- `pd.to_datetime(_, errors='coerce')` on one cell; coercion failure is
`NaT` (`none`).  Date cells arrive as ISO text; the numeric-epoch reading
pandas gives bare numbers is not modelled (no claim exercises it). -/
def parseDateCell : Cell → Option Date
  | .str s => parseISO s
  | _ => none

/-- `pd.to_numeric(_, errors='coerce').fillna(0)` on one cell. -/
def toNumCell : Cell → Rat
  | .num q => q
  | .str s => (parseDec s).getD 0
  | .empty => 0

/-- One surviving statement row after `load_data`'s validation.  Numeric
and description fields are `none` exactly when the whole column is absent
from the sheet (it is then absent from the frame as well). -/
structure TxRow where
  scheme_name : Cell
  date : Date
  nav : Option Rat
  units : Option Rat
  amount : Option Rat
  descr : Option Cell
deriving DecidableEq, Repr

/-- `DataProcessor.load_data`.  The argument is the outcome of
`pd.read_excel(..., sheet_name='Transaction Details', header=8)`: `none`
when the sheet is absent (the raised error is caught, `None` returned).
Column labels are stripped; a missing `Scheme Name` or `Date` column makes
the later column access raise, likewise caught (`none`).  Otherwise rows
lacking a scheme name are dropped, then rows whose date does not parse,
and the rest are normalised; the surviving list — possibly empty — is
returned. -/
def load_data (sheet : Option DF) : Option (List TxRow) :=
  match sheet with
  | none => none
  | some df =>
    let cols := df.cols.map stripStr
    if cols.contains "Scheme Name" then
      if cols.contains "Date" then
        let kept := df.rows.filter (fun r => !(getCell cols r "Scheme Name").isNaN)
        let dated := kept.filterMap (fun r =>
          (parseDateCell (getCell cols r "Date")).map (fun d => (r, d)))
        some (dated.map (fun rd =>
          { scheme_name := getCell cols rd.1 "Scheme Name"
            date := rd.2
            nav := if cols.contains "NAV" then
                some (toNumCell (getCell cols rd.1 "NAV")) else none
            units := if cols.contains "Units" then
                some (toNumCell (getCell cols rd.1 "Units")) else none
            amount := if cols.contains "Amount" then
                some (toNumCell (getCell cols rd.1 "Amount")) else none
            descr := if cols.contains "Transaction Description" then
                some (getCell cols rd.1 "Transaction Description") else none }))
      else none
    else none

/-- First-occurrence deduplication (`Series.unique` keeps the first of
each duplicate, in order). -/
def dedupFirstAux (seen : List Cell) : List Cell → List Cell
  | [] => []
  | c :: t =>
      if seen.contains c then dedupFirstAux seen t
      else c :: dedupFirstAux (c :: seen) t

/-- Distinct values in first-appearance order. -/
def dedupFirst (l : List Cell) : List Cell := dedupFirstAux [] l

/-- `DataProcessor.get_schemes`.  `transactions` is `self.transactions`:
`none` before a load or after a failed one. -/
def get_schemes (transactions : Option (List TxRow)) : List Cell :=
  match transactions with
  | some rows => dedupFirst (rows.map (fun t => t.scheme_name))
  | none => []

/-- Row ordering for `sort_values('Date')` on transactions. -/
def txLe (a b : TxRow) : Prop := dateKey a.date ≤ dateKey b.date

instance : DecidableRel txLe := fun _ _ => Nat.decLe _ _

/-- `DataProcessor.get_transactions_for_scheme`: rows of one scheme sorted
ascending by date, or the empty frame when nothing is loaded. -/
def get_transactions_for_scheme (transactions : Option (List TxRow))
    (scheme_name : Cell) : List TxRow :=
  match transactions with
  | some rows =>
      List.insertionSort txLe (rows.filter (fun t => t.scheme_name == scheme_name))
  | none => []

/-! ### Helper lemmas -/

instance : IsTotal CachePoint pointLe := ⟨fun _ _ => Nat.le_total _ _⟩

instance : IsTrans CachePoint pointLe := ⟨fun _ _ _ => Nat.le_trans⟩

theorem parseDMY_valid {s : String} {d : Date} (h : parseDMY s = some d) :
    validDate d = true := by
  unfold parseDMY at h
  split at h
  · split at h
    · split at h
      · cases h
        assumption
      · exact absurd h (by simp)
    · exact absurd h (by simp)
  · exact absurd h (by simp)

theorem parsePoint_valid {r : RawPoint} {p : CachePoint} (h : parsePoint r = some p) :
    validDate p.date = true := by
  unfold parsePoint at h
  cases hd : parseDMY r.date with
  | none => rw [hd] at h; simp at h
  | some d =>
    rw [hd] at h
    cases hn : parseDec r.nav with
    | none => rw [hn] at h; simp at h
    | some n =>
      rw [hn] at h
      simp at h
      rw [← h]
      exact parseDMY_valid hd

theorem mapM_option_mem {α β : Type} (f : α → Option β) :
    ∀ (l : List α) (ys : List β), l.mapM f = some ys →
      ∀ y ∈ ys, ∃ x ∈ l, f x = some y := by
  intro l
  induction l with
  | nil =>
    intro ys h y hy
    simp only [List.mapM_nil] at h
    cases h
    simp at hy
  | cons a t ih =>
    intro ys h y hy
    rw [List.mapM_cons] at h
    cases hfa : f a with
    | none => rw [hfa] at h; simp at h
    | some b =>
      rw [hfa] at h
      cases hmt : t.mapM f with
      | none => rw [hmt] at h; simp at h
      | some bs =>
        rw [hmt] at h
        simp at h
        rw [← h] at hy
        rcases List.mem_cons.mp hy with rfl | hmem
        · exact ⟨a, by simp, hfa⟩
        · rcases ih bs hmt y hmem with ⟨x, hx, hfx⟩
          exact ⟨x, List.mem_cons_of_mem _ hx, hfx⟩

theorem loadPoint_storePoint {p : CachePoint} (h : validDate p.date = true) :
    loadPoint (storePoint p) = some p := by
  unfold loadPoint storePoint
  rw [parseISO_formatISO p.date h]
  rfl

theorem loadPoints_map_storePoint (pts : List CachePoint)
    (h : ∀ p ∈ pts, validDate p.date = true) :
    loadPoints (pts.map storePoint) = some pts := by
  induction pts with
  | nil => rfl
  | cons p t ih =>
    have hp : loadPoint (storePoint p) = some p :=
      loadPoint_storePoint (h p (by simp))
    unfold loadPoints at *
    rw [List.map_cons, List.mapM_cons, hp,
      ih (fun q hq => h q (List.mem_cons_of_mem _ hq))]
    rfl

theorem processRaw_sorted {raw : List RawPoint} {pts : List CachePoint}
    (h : processRaw raw = some pts) : List.Sorted pointLe pts := by
  cases raw with
  | nil => exact absurd h (by simp [processRaw])
  | cons r rs =>
    have h' : ((r :: rs).mapM parsePoint).map (List.insertionSort pointLe) = some pts := h
    cases hm : (r :: rs).mapM parsePoint with
    | none => rw [hm] at h'; simp at h'
    | some l =>
      rw [hm] at h'
      simp at h'
      rw [← h']
      exact List.sorted_insertionSort pointLe l

theorem processRaw_valid {raw : List RawPoint} {pts : List CachePoint}
    (h : processRaw raw = some pts) : ∀ p ∈ pts, validDate p.date = true := by
  cases raw with
  | nil => exact absurd h (by simp [processRaw])
  | cons r rs =>
    have h' : ((r :: rs).mapM parsePoint).map (List.insertionSort pointLe) = some pts := h
    cases hm : (r :: rs).mapM parsePoint with
    | none => rw [hm] at h'; simp at h'
    | some l =>
      rw [hm] at h'
      simp at h'
      intro p hp
      rw [← h'] at hp
      have hpl : p ∈ l := (List.mem_insertionSort pointLe).mp hp
      rcases mapM_option_mem parsePoint _ l hm p hpl with ⟨x, _, hfx⟩
      exact parsePoint_valid hfx

theorem lookupA_insertA_self {β : Type} (l : List (String × β)) (k : String) (v : β) :
    lookupA (insertA l k v) k = some v := by
  induction l with
  | nil => simp [insertA, lookupA]
  | cons p t ih =>
    obtain ⟨k', v'⟩ := p
    unfold insertA
    by_cases hk : k' = k
    · rw [if_pos hk]
      simp [lookupA]
    · rw [if_neg hk]
      unfold lookupA
      rw [if_neg hk]
      exact ih

theorem extractOne_mem (score : String → Nat) :
    ∀ (l : List String) (b : String) (s : Nat),
      extractOne score l = some (b, s) → b ∈ l ∧ s = score b := by
  intro l
  induction l with
  | nil => intro b s h; simp [extractOne] at h
  | cons c cs ih =>
    intro b s h
    unfold extractOne at h
    cases he : extractOne score cs with
    | none =>
      rw [he] at h
      cases h
      exact ⟨by simp, rfl⟩
    | some p =>
      obtain ⟨b', s'⟩ := p
      rw [he] at h
      have h' : (if s' > score c then some (b', s') else some (c, score c)) =
          some (b, s) := h
      by_cases hgt : s' > score c
      · rw [if_pos hgt] at h'
        cases h'
        rcases ih b s he with ⟨hmem, hs⟩
        exact ⟨List.mem_cons_of_mem _ hmem, hs⟩
      · rw [if_neg hgt] at h'
        cases h'
        exact ⟨by simp, rfl⟩

theorem findCodeFor_exists (l : List (String × String)) (b : String)
    (h : b ∈ l.map Prod.snd) : ∃ code, findCodeFor l b = some code := by
  induction l with
  | nil => simp at h
  | cons p t ih =>
    obtain ⟨code, name⟩ := p
    by_cases hn : name = b
    · exact ⟨code, by simp [findCodeFor, hn]⟩
    · have : b ∈ t.map Prod.snd := by
        simp at h
        rcases h with h | h
        · exact absurd h.symm hn
        · simpa using h
      rcases ih this with ⟨c, hc⟩
      exact ⟨c, by simp [findCodeFor, hn, hc]⟩

theorem fetchFromProvider_calls (st : FetchState) (provider : String → ProviderResp)
    (today code : String) :
    (fetchFromProvider st provider today code).providerCalled = true := by
  unfold fetchFromProvider
  cases provider code with
  | fault => rfl
  | nodata => rfl
  | ok raw =>
    show (match processRaw raw with
      | none => (⟨none, st, true, true⟩ : FetchResult)
      | some pts =>
          ⟨some pts, ⟨insertA st.cache code ⟨today, pts.map storePoint⟩⟩,
            true, true⟩).providerCalled = true
    cases processRaw raw <;> rfl

theorem fetchFromProvider_failure (st : FetchState) (provider : String → ProviderResp)
    (today code : String)
    (hfail : provider code = .fault ∨ provider code = .nodata ∨
      ∃ raw, provider code = .ok raw ∧ processRaw raw = none) :
    fetchFromProvider st provider today code = ⟨none, st, true, true⟩ := by
  unfold fetchFromProvider
  rcases hfail with hp | hp | ⟨raw, hp, hr⟩
  · rw [hp]
  · rw [hp]
  · rw [hp]
    show (match processRaw raw with
      | none => (⟨none, st, true, true⟩ : FetchResult)
      | some pts =>
          ⟨some pts, ⟨insertA st.cache code ⟨today, pts.map storePoint⟩⟩, true, true⟩) =
      ⟨none, st, true, true⟩
    rw [hr]

theorem fetchFromProvider_success (st : FetchState) (provider : String → ProviderResp)
    (today code : String) (pts : List CachePoint)
    (h : (fetchFromProvider st provider today code).result = some pts) :
    fetchFromProvider st provider today code =
      ⟨some pts, ⟨insertA st.cache code ⟨today, pts.map storePoint⟩⟩, true, true⟩ ∧
    List.Sorted pointLe pts ∧
    (∀ p ∈ pts, validDate p.date = true) := by
  unfold fetchFromProvider at h ⊢
  cases hp : provider code with
  | fault => rw [hp] at h; simp at h
  | nodata => rw [hp] at h; simp at h
  | ok raw =>
    rw [hp] at h
    have h' : (match processRaw raw with
        | none => (⟨none, st, true, true⟩ : FetchResult)
        | some pts =>
            ⟨some pts, ⟨insertA st.cache code ⟨today, pts.map storePoint⟩⟩,
              true, true⟩).result = some pts := h
    cases hr : processRaw raw with
    | none =>
      rw [hr] at h'
      simp at h'
    | some l =>
      rw [hr] at h'
      have h'' : some l = some pts := h'
      cases h''
      refine ⟨?_, processRaw_sorted hr, processRaw_valid hr⟩
      show (match processRaw raw with
        | none => (⟨none, st, true, true⟩ : FetchResult)
        | some pts =>
            ⟨some pts, ⟨insertA st.cache code ⟨today, pts.map storePoint⟩⟩,
              true, true⟩) =
        ⟨some pts, ⟨insertA st.cache code ⟨today, pts.map storePoint⟩⟩, true, true⟩
      rw [hr]

theorem fetch_fresh_hit (st : FetchState) (provider : String → ProviderResp)
    (today code : String) (e : CacheEntry) (hne : code.isEmpty = false)
    (hl : lookupA st.cache code = some e) (hf : e.last_updated = today) :
    fetch_historical_nav st provider today (some code) =
      ⟨decodeEntry e, st, false, true⟩ := by
  simp [fetch_historical_nav, hne, hl, hf]

theorem fetch_miss (st : FetchState) (provider : String → ProviderResp)
    (today code : String) (hne : code.isEmpty = false)
    (hstale : ∀ e : CacheEntry, lookupA st.cache code = some e →
      e.last_updated ≠ today) :
    fetch_historical_nav st provider today (some code) =
      fetchFromProvider st provider today code := by
  cases hl : lookupA st.cache code with
  | none => simp [fetch_historical_nav, hne, hl]
  | some e => simp [fetch_historical_nav, hne, hl, hstale e hl]

/-! ### Claim theorems -/

/-- C1: for a source name with no existing mapping entry, `get_scheme_code`
accepts the best fuzzy match iff its score strictly exceeds 80: at score
exactly 80 it returns `None` and writes nothing to the mapping store, while
at 81 or above it returns the code of the best match and records the
`source_name → code` entry in the persisted store. -/
theorem C1_resolver_threshold_boundary (score : String → String → Nat)
    (st : ResolverState) (n b : String) (s : Nat)
    (hmiss : lookupA st.mappings n = none)
    (hext : extractOne (score n) (st.scheme_codes.map Prod.snd) = some (b, s)) :
    (s ≤ 80 → get_scheme_code score st n = (none, st, true)) ∧
    (81 ≤ s → ∃ code, findCodeFor st.scheme_codes b = some code ∧
      get_scheme_code score st n =
        (some code, ⟨st.scheme_codes, insertA st.mappings n code⟩, true) ∧
      lookupA (insertA st.mappings n code) n = some code) := by
  constructor
  · intro h80
    simp only [get_scheme_code, hmiss, hext]
    rw [if_neg (by omega : ¬ s > 80)]
  · intro h81
    have hb : b ∈ st.scheme_codes.map Prod.snd :=
      (extractOne_mem (score n) _ b s hext).1
    obtain ⟨code, hcode⟩ := findCodeFor_exists st.scheme_codes b hb
    refine ⟨code, hcode, ?_, lookupA_insertA_self _ _ _⟩
    simp only [get_scheme_code, hmiss, hext, hcode]
    rw [if_pos (by omega : s > 80)]

/-- Constant scorers and state for the concrete boundary run of C1. -/
def c1score80 : String → String → Nat := fun _ _ => 80

/-- Constant scorer returning 81. -/
def c1score81 : String → String → Nat := fun _ _ => 81

/-- One-entry catalog, empty mapping store. -/
def c1state : ResolverState := ⟨[("C1", "Fund X Growth")], []⟩

/-- C1 witness: at score 80 the resolver rejects and keeps the store; at 81
it returns the matched code and appends the mapping. -/
theorem C1_witness :
    get_scheme_code c1score80 c1state "Fund X - Growth Option" = (none, c1state, true) ∧
    get_scheme_code c1score81 c1state "Fund X - Growth Option" =
      (some "C1", ⟨[("C1", "Fund X Growth")], [("Fund X - Growth Option", "C1")]⟩, true) := by
  constructor
  · exact (C1_resolver_threshold_boundary c1score80 c1state
      "Fund X - Growth Option" "Fund X Growth" 80 (by decide) (by decide)).1 (by omega)
  · obtain ⟨code, hcode, heq, -⟩ := (C1_resolver_threshold_boundary c1score81 c1state
      "Fund X - Growth Option" "Fund X Growth" 81 (by decide) (by decide)).2 (by omega)
    have hc : code = "C1" := by
      have h0 : findCodeFor c1state.scheme_codes "Fund X Growth" = some "C1" := by decide
      rw [h0] at hcode
      exact (Option.some.inj hcode).symm
    subst hc
    exact heq

/-- C6: once `get_scheme_code` resolves a name to a code, a second call
with the same name returns the same code from the stored mapping, performs
no fuzzy catalog scan, and leaves the mapping store unchanged. -/
theorem C6_resolver_idempotent (score : String → String → Nat)
    (st st' : ResolverState) (n code : String) (scanned : Bool)
    (h : get_scheme_code score st n = (some code, st', scanned)) :
    get_scheme_code score st' n = (some code, st', false) := by
  unfold get_scheme_code at h
  cases hl : lookupA st.mappings n with
  | some c =>
    rw [hl] at h
    have h' : ((some c, st, false) : Option String × ResolverState × Bool) =
        (some code, st', scanned) := h
    simp only [Prod.mk.injEq, Option.some.injEq] at h'
    obtain ⟨hc, hst, -⟩ := h'
    subst hc
    subst hst
    simp [get_scheme_code, hl]
  | none =>
    rw [hl] at h
    cases he : extractOne (score n) (st.scheme_codes.map Prod.snd) with
    | none =>
      rw [he] at h
      have h' : ((none, st, true) : Option String × ResolverState × Bool) =
          (some code, st', scanned) := h
      simp at h'
    | some p =>
      obtain ⟨b, s⟩ := p
      rw [he] at h
      have h' : (if s > 80 then
          match findCodeFor st.scheme_codes b with
          | some c => ((some c,
              ⟨st.scheme_codes, insertA st.mappings n c⟩, true) :
              Option String × ResolverState × Bool)
          | none => (none, st, true)
        else (none, st, true)) = (some code, st', scanned) := h
      by_cases h80 : s > 80
      · rw [if_pos h80] at h'
        cases hf : findCodeFor st.scheme_codes b with
        | none =>
          rw [hf] at h'
          simp at h'
        | some c =>
          rw [hf] at h'
          have h'' : ((some c, ⟨st.scheme_codes, insertA st.mappings n c⟩, true) :
              Option String × ResolverState × Bool) = (some code, st', scanned) := h'
          simp only [Prod.mk.injEq, Option.some.injEq] at h''
          obtain ⟨hc, hst, -⟩ := h''
          subst hc
          rw [← hst]
          simp [get_scheme_code, lookupA_insertA_self]
      · rw [if_neg h80] at h'
        simp at h'

/-- Constant scorer for the concrete idempotence run of C6. -/
def c6score : String → String → Nat := fun _ _ => 90

/-- Resolver state before the first C6 call. -/
def c6start : ResolverState := ⟨[("C6C", "Fund Y Growth")], []⟩

/-- Resolver state after the first C6 call resolved and persisted. -/
def c6resolved : ResolverState := ⟨[("C6C", "Fund Y Growth")], [("Fund Y", "C6C")]⟩

/-- C6 witness: after a first call resolves "Fund Y" and appends the
mapping, the second call returns the same code with no catalog scan and no
store change. -/
theorem C6_witness :
    get_scheme_code c6score c6resolved "Fund Y" = (some "C6C", c6resolved, false) :=
  C6_resolver_idempotent c6score c6start c6resolved "Fund Y" "C6C" true (by decide)

/-- C2: a cache entry whose `last_updated` equals today is served from the
cache without calling the provider; a call finding no fresh entry does
call it; and after any call that returns a series, a same-day repeat call
for the same code is provider-free and returns the same points — so two
same-day calls trigger the provider exactly once, on the first. -/
theorem C2_same_day_single_fetch (st : FetchState) (provider : String → ProviderResp)
    (today code : String) (hne : code.isEmpty = false) :
    (∀ e : CacheEntry, lookupA st.cache code = some e → e.last_updated = today →
      fetch_historical_nav st provider today (some code) =
        ⟨decodeEntry e, st, false, true⟩) ∧
    ((∀ e : CacheEntry, lookupA st.cache code = some e → e.last_updated ≠ today) →
      (fetch_historical_nav st provider today (some code)).providerCalled = true) ∧
    (∀ pts : List CachePoint,
      (fetch_historical_nav st provider today (some code)).result = some pts →
      fetch_historical_nav (fetch_historical_nav st provider today (some code)).state
          provider today (some code) =
        ⟨some pts, (fetch_historical_nav st provider today (some code)).state,
          false, true⟩) := by
  refine ⟨fun e hl hf => fetch_fresh_hit st provider today code e hne hl hf, ?_, ?_⟩
  · intro hstale
    rw [fetch_miss st provider today code hne hstale]
    exact fetchFromProvider_calls st provider today code
  · intro pts hres
    by_cases hE : ∃ e, lookupA st.cache code = some e ∧ e.last_updated = today
    · obtain ⟨e, hl, hf⟩ := hE
      have hfix := fetch_fresh_hit st provider today code e hne hl hf
      rw [hfix] at hres ⊢
      have hd : decodeEntry e = some pts := hres
      show fetch_historical_nav st provider today (some code) = ⟨some pts, st, false, true⟩
      rw [hfix, hd]
    · have hstale : ∀ e : CacheEntry, lookupA st.cache code = some e →
          e.last_updated ≠ today := by
        intro e hl hf
        exact hE ⟨e, hl, hf⟩
      have hfix := fetch_miss st provider today code hne hstale
      rw [hfix] at hres ⊢
      obtain ⟨heq, -, hvalid⟩ := fetchFromProvider_success st provider today code pts hres
      rw [heq]
      have hlook : lookupA (insertA st.cache code ⟨today, pts.map storePoint⟩) code =
          some ⟨today, pts.map storePoint⟩ := lookupA_insertA_self _ _ _
      have hsecond := fetch_fresh_hit ⟨insertA st.cache code ⟨today, pts.map storePoint⟩⟩
        provider today code ⟨today, pts.map storePoint⟩ hne hlook rfl
      rw [hsecond]
      have hdec : decodeEntry ⟨today, pts.map storePoint⟩ = some pts :=
        loadPoints_map_storePoint pts hvalid
      rw [hdec]

/-- Provider for the concrete C2 run: two distinct-date points. -/
def c2prov : String → ProviderResp :=
  fun _ => .ok [⟨"01-01-2024", "10"⟩, ⟨"02-01-2024", "11"⟩]

/-- C2 witness: after a first successful call populates the cache, the
same-day second call is provider-free and returns the same points. -/
theorem C2_witness :
    fetch_historical_nav (fetch_historical_nav ⟨[]⟩ c2prov "2024-06-01" (some "C2")).state
        c2prov "2024-06-01" (some "C2") =
      ⟨some ((fetch_historical_nav ⟨[]⟩ c2prov "2024-06-01" (some "C2")).result.getD []),
        (fetch_historical_nav ⟨[]⟩ c2prov "2024-06-01" (some "C2")).state, false, true⟩ :=
  (C2_same_day_single_fetch ⟨[]⟩ c2prov "2024-06-01" "C2" rfl).2.2 _ (by decide)

/-- Provider returning two points on the same date, exercising the missing
deduplication step. -/
def c3prov : String → ProviderResp :=
  fun _ => .ok [⟨"01-01-2024", "10"⟩, ⟨"01-01-2024", "11"⟩]

/-- C3 counterexample: a successful fetch of a provider response holding
two points with the same date both returns and persists the duplicate date
twice — the code has no deduplication, refuting the claimed no-duplicate
invariant. -/
theorem C3_counterexample :
    ((fetch_historical_nav ⟨[]⟩ c3prov "2024-06-01" (some "C1")).result.getD []).map
        (fun p => p.date) = [⟨2024, 1, 1⟩, ⟨2024, 1, 1⟩] ∧
    ((lookupA (fetch_historical_nav ⟨[]⟩ c3prov "2024-06-01" (some "C1")).state.cache
        "C1").getD ⟨"", []⟩).data.map (fun p => p.date) =
      ["2024-01-01", "2024-01-01"] := by
  constructor <;> decide

/-- C3 amended: every series a successful provider fetch returns is sorted
non-decreasing by date and is persisted as-is (serialised) under the
scheme code with `fetched_on = today`; duplicate dates in the provider
response are retained, so the invariant is non-decreasing order, not
no-duplicate ascending order. -/
theorem C3_sorted_not_deduped (st : FetchState) (provider : String → ProviderResp)
    (today code : String) (pts : List CachePoint)
    (h : (fetchFromProvider st provider today code).result = some pts) :
    List.Sorted pointLe pts ∧
    (fetchFromProvider st provider today code).state.cache =
      insertA st.cache code ⟨today, pts.map storePoint⟩ := by
  obtain ⟨heq, hsort, -⟩ := fetchFromProvider_success st provider today code pts h
  exact ⟨hsort, by rw [heq]⟩

/-- C3 witness: the amended statement at the duplicate-date provider. -/
theorem C3_witness :
    List.Sorted pointLe
      ((fetchFromProvider ⟨[]⟩ c3prov "2024-06-01" "C1").result.getD []) ∧
    (fetchFromProvider ⟨[]⟩ c3prov "2024-06-01" "C1").state.cache =
      insertA [] "C1" ⟨"2024-06-01",
        ((fetchFromProvider ⟨[]⟩ c3prov "2024-06-01" "C1").result.getD []).map
          storePoint⟩ :=
  C3_sorted_not_deduped ⟨[]⟩ c3prov "2024-06-01" "C1" _ (by decide)

/-- C4: when no fresh entry short-circuits the call and the provider
faults, or returns an empty or `data`-less or unparsable response, the
fetch returns `None` and the whole cache store — the entry for that code
and every other entry — is exactly what it was before the call. -/
theorem C4_failure_leaves_cache (st : FetchState) (provider : String → ProviderResp)
    (today code : String) (hne : code.isEmpty = false)
    (hstale : ∀ e : CacheEntry, lookupA st.cache code = some e →
      e.last_updated ≠ today)
    (hfail : provider code = .fault ∨ provider code = .nodata ∨
      ∃ raw, provider code = .ok raw ∧ processRaw raw = none) :
    fetch_historical_nav st provider today (some code) = ⟨none, st, true, true⟩ := by
  rw [fetch_miss st provider today code hne hstale,
    fetchFromProvider_failure st provider today code hfail]

/-- C4 witness: a transport fault on an empty cache returns `None` and the
cache is unchanged. -/
theorem C4_witness :
    fetch_historical_nav ⟨[("K", ⟨"2024-05-31", []⟩)]⟩ (fun _ => ProviderResp.fault)
        "2024-06-01" (some "C1") =
      ⟨none, ⟨[("K", ⟨"2024-05-31", []⟩)]⟩, true, true⟩ :=
  C4_failure_leaves_cache ⟨[("K", ⟨"2024-05-31", []⟩)]⟩ _ "2024-06-01" "C1" rfl
    (fun e he => by simp [lookupA] at he) (Or.inl rfl)

/-- C8: the series written by a successful fetch is stored under the
scheme code and reloads from storage to exactly the same ordered point
sequence — same dates, same NAV values, in the same order. -/
theorem C8_store_reload_roundtrip (st : FetchState) (provider : String → ProviderResp)
    (today code : String) (pts : List CachePoint)
    (h : (fetchFromProvider st provider today code).result = some pts) :
    ∃ e : CacheEntry,
      lookupA (fetchFromProvider st provider today code).state.cache code = some e ∧
      e.data = pts.map storePoint ∧
      loadPoints e.data = some pts := by
  obtain ⟨heq, -, hvalid⟩ := fetchFromProvider_success st provider today code pts h
  refine ⟨⟨today, pts.map storePoint⟩, ?_, rfl, loadPoints_map_storePoint pts hvalid⟩
  rw [heq]
  exact lookupA_insertA_self _ _ _

/-- Provider for the concrete C8 round-trip run. -/
def c8prov : String → ProviderResp :=
  fun _ => .ok [⟨"02-01-2024", "11"⟩, ⟨"01-01-2024", "10"⟩]

/-- C8 witness: the stored entry for a concrete fetch reloads to the
returned series. -/
theorem C8_witness :
    ∃ e : CacheEntry,
      lookupA (fetchFromProvider ⟨[]⟩ c8prov "2024-06-01" "C8").state.cache "C8" =
        some e ∧
      e.data = ((fetchFromProvider ⟨[]⟩ c8prov "2024-06-01" "C8").result.getD []).map
        storePoint ∧
      loadPoints e.data =
        some ((fetchFromProvider ⟨[]⟩ c8prov "2024-06-01" "C8").result.getD []) :=
  C8_store_reload_roundtrip ⟨[]⟩ c8prov "2024-06-01" "C8" _ (by decide)

/-- C9: a falsy scheme code — Python `None` or the empty string — makes
`fetch_historical_nav` return `None` immediately: the provider is not
contacted, the cache store is not consulted, and the state is unchanged. -/
theorem C9_falsy_code (st : FetchState) (provider : String → ProviderResp)
    (today : String) :
    fetch_historical_nav st provider today none = ⟨none, st, false, false⟩ ∧
    fetch_historical_nav st provider today (some "") = ⟨none, st, false, false⟩ :=
  ⟨rfl, rfl⟩

/-- Statement sheet with the required columns whose single row fails
validation (missing scheme name). -/
def c5df : DF := ⟨["Scheme Name", "Date"], [[Cell.empty, Cell.str "2024-01-05"]]⟩

/-- C5 counterexample: with the sheet present and the required columns in
place, a statement whose rows all fail validation does not produce the
load failure the claim requires — `load_data` returns the empty row set,
not the `LoadError` result `None`. -/
theorem C5_counterexample :
    load_data (some c5df) = some [] ∧ load_data (some c5df) ≠ none := by
  exact ⟨by decide, by decide⟩

/-- C5 amended: `load_data` returns the `LoadError` result (`None`) when
the sheet is absent or when the trimmed columns lack `Scheme Name` or
`Date` — the raised errors are caught and returned as results, never
escaping; when the structure is present but no rows survive validation it
instead returns the empty transaction set, not a failure. -/
theorem C5_load_failure_modes (df : DF) :
    load_data none = none ∧
    ((df.cols.map stripStr).contains "Scheme Name" = false →
      load_data (some df) = none) ∧
    ((df.cols.map stripStr).contains "Date" = false →
      load_data (some df) = none) ∧
    ((df.cols.map stripStr).contains "Scheme Name" = true →
      (df.cols.map stripStr).contains "Date" = true →
      (∀ r ∈ df.rows,
        (getCell (df.cols.map stripStr) r "Scheme Name").isNaN = true ∨
        parseDateCell (getCell (df.cols.map stripStr) r "Date") = none) →
      load_data (some df) = some []) := by
  refine ⟨rfl, ?_, ?_, ?_⟩
  · intro h
    have hs' : ¬((df.cols.map stripStr).contains "Scheme Name" = true) := by
      rw [h]; exact Bool.false_ne_true
    simp only [load_data]
    rw [if_neg hs']
  · intro h
    have hd' : ¬((df.cols.map stripStr).contains "Date" = true) := by
      rw [h]; exact Bool.false_ne_true
    simp only [load_data]
    by_cases hs : (df.cols.map stripStr).contains "Scheme Name" = true
    · rw [if_pos hs, if_neg hd']
    · rw [if_neg hs]
  · intro hs hd hrows
    simp only [load_data]
    rw [if_pos hs, if_pos hd]
    have hdated : (df.rows.filter
        (fun r => !(getCell (df.cols.map stripStr) r "Scheme Name").isNaN)).filterMap
        (fun r => (parseDateCell (getCell (df.cols.map stripStr) r "Date")).map
          (fun d => (r, d))) = [] := by
      rw [List.filterMap_eq_nil_iff]
      intro r hr
      have hrmem : r ∈ df.rows := (List.mem_filter.mp hr).1
      have hkeep : (!(getCell (df.cols.map stripStr) r "Scheme Name").isNaN) = true :=
        (List.mem_filter.mp hr).2
      rcases hrows r hrmem with hnan | hdate
      · rw [hnan] at hkeep
        simp at hkeep
      · rw [hdate]
        rfl
    rw [hdated]
    rfl

/-- C5 witness: the amended failure modes at concrete inputs — absent
sheet gives `None`, an all-invalid statement gives the empty set. -/
theorem C5_witness :
    load_data none = none ∧ load_data (some c5df) = some [] :=
  ⟨(C5_load_failure_modes c5df).1,
    (C5_load_failure_modes c5df).2.2.2 (by decide) (by decide) (by decide)⟩

/-- Scenario A statement: two rows, the second with unparsable units. -/
def c7df : DF :=
  ⟨["Scheme Name", "Date", "NAV", "Units", "Amount"],
    [[Cell.str "Fund X", Cell.str "2024-01-05", Cell.num 10, Cell.num 50,
        Cell.num 500],
     [Cell.str "Fund X", Cell.str "2024-02-05", Cell.num 10, Cell.str "bad",
        Cell.num 500]]⟩

/-- C7: every row surviving `load_data` keeps a non-`NaN` scheme name (and
a parsed calendar date, by construction of `TxRow`); a numeric cell that
is missing or unparsable becomes zero instead of dropping its row; and in
the Scenario A statement the row with units text `"bad"` is retained, with
units 0, alongside the good row. -/
theorem C7_surviving_rows (df : DF) (txs : List TxRow)
    (h : load_data (some df) = some txs) :
    (∀ t ∈ txs, t.scheme_name.isNaN = false) ∧
    (∀ c : Cell, c.isNaN = true ∨ (∃ s, c = .str s ∧ parseDec s = none) →
      toNumCell c = 0) ∧
    (load_data (some c7df)).map (fun l => l.map (fun t => t.units)) =
      some [some 50, some 0] := by
  refine ⟨?_, ?_, by decide⟩
  · intro t ht
    by_cases hs : (df.cols.map stripStr).contains "Scheme Name" = true
    case neg =>
      simp only [load_data] at h
      rw [if_neg hs] at h
      exact absurd h (by simp)
    case pos =>
      by_cases hd : (df.cols.map stripStr).contains "Date" = true
      case neg =>
        simp only [load_data] at h
        rw [if_pos hs, if_neg hd] at h
        exact absurd h (by simp)
      case pos =>
        simp only [load_data] at h
        rw [if_pos hs, if_pos hd] at h
        have h' := Option.some.inj h
        rw [← h'] at ht
        rcases List.mem_map.mp ht with ⟨rd, hrd, rfl⟩
        rcases List.mem_filterMap.mp hrd with ⟨r, hr, hmap⟩
        cases hpd : parseDateCell (getCell (df.cols.map stripStr) r "Date") with
        | none => rw [hpd] at hmap; simp at hmap
        | some d =>
          rw [hpd] at hmap
          simp only [Option.map_some', Option.some.injEq] at hmap
          cases hmap
          have hkeep : (!(getCell (df.cols.map stripStr) r "Scheme Name").isNaN) =
              true := (List.mem_filter.mp hr).2
          show (getCell (df.cols.map stripStr) r "Scheme Name").isNaN = false
          simpa using hkeep
  · intro c hc
    rcases hc with hnan | ⟨s, rfl, hps⟩
    · cases c with
      | empty => rfl
      | str s =>
        have hx : (false : Bool) = true := hnan
        exact Bool.noConfusion hx
      | num q =>
        have hx : (false : Bool) = true := hnan
        exact Bool.noConfusion hx
    · simp [toNumCell, hps]

/-- C7 witness: the statement of C7 instantiated on the Scenario A
statement itself. -/
theorem C7_witness :
    (∀ t ∈ (load_data (some c7df)).getD [], t.scheme_name.isNaN = false) ∧
    (∀ c : Cell, c.isNaN = true ∨ (∃ s, c = .str s ∧ parseDec s = none) →
      toNumCell c = 0) ∧
    (load_data (some c7df)).map (fun l => l.map (fun t => t.units)) =
      some [some 50, some 0] :=
  C7_surviving_rows c7df _ (by decide)

/-- C10: with no statement loaded (or a failed load), `self.transactions`
is `None` and both query operations are total: `get_schemes` returns the
empty list and `get_transactions_for_scheme` returns the empty frame for
every scheme name, with no error. -/
theorem C10_queries_total :
    get_schemes none = [] ∧
    ∀ name : Cell, get_transactions_for_scheme none name = [] :=
  ⟨rfl, fun _ => rfl⟩

end MFspec
